import Mathlib

set_option maxRecDepth 8000

/-
Verification development for the BotArticulos repository.

Shallow embedding conventions:
- Timestamps are integers (one unit = one day for the cutoff arithmetic in
  fetch_all_feeds); ISO-format rendering of a timestamp is modelled by toString.
- Floating-point reading-time arithmetic is modelled exactly over the rationals.
- Network and I/O boundaries are passed in as explicit data: each feed endpoint
  contributes a FeedResult (its source domain and either a parsed entry list or
  a fetch/parse failure), newspaper3k full-text extraction is a function
  parameter, and the LLM oracle is the already-parsed response value (with both
  API failure and unparseable JSON collapsed to none, exactly as both paths
  return None in selector.py).
- Python dicts holding articles are modelled as structures whose fields are the
  keys the code reads and writes.
-/

namespace BotArticulos

/-! ## feeds.py: string helpers and the reading-time estimator -/

/-- Python str.split() with no separator: maximal runs of non-whitespace. -/
def wordsOf (s : String) : List String :=
  (s.split (fun c => c.isWhitespace)).filter (fun w => w ≠ "")

/-- feeds.py _estimate_reading_min: word count divided by words-per-minute,
0.0 when the text has no words. (Python would raise ZeroDivisionError for
wpm = 0 with a non-empty text; theorems that depend on the estimate therefore
assume 0 < wpm.) -/
def estimate_reading_min (text : String) (wpm : Nat) : Rat :=
  if (wordsOf text).length = 0 then 0
  else ((wordsOf text).length : Rat) / (wpm : Rat)

/-- Python round-half-to-even on an exact rational. -/
def round_half_even (q : Rat) : Int :=
  let f : Int := q.floor
  if q - (f : Rat) < 1/2 then f
  else if 1/2 < q - (f : Rat) then f + 1
  else if f % 2 = 0 then f else f + 1

/-- Python round(x, 1). -/
def round1 (q : Rat) : Rat := ((round_half_even (q * 10) : Int) : Rat) / 10

/-- Single left-to-right pass implementing re.sub of the pattern
"< [^>]+ >" (one "<", one or more non-">" characters, one ">") by the empty
string: the state carries the reversed buffer of a candidate tag opened by "<".
A "<>" pair has no character between the brackets and is kept literally, and an
unterminated "<..." tail is kept literally, matching the regex semantics. -/
def stripTagsGo : Option (List Char) → List Char → List Char
  | none, [] => []
  | some buf, [] => buf.reverse
  | none, c :: rest =>
      if c = '<' then stripTagsGo (some [c]) rest
      else c :: stripTagsGo none rest
  | some buf, c :: rest =>
      if c = '>' then
        if 2 ≤ buf.length then stripTagsGo none rest
        else buf.reverse ++ '>' :: stripTagsGo none rest
      else stripTagsGo (some (c :: buf)) rest

/-- feeds.py _clean_summary: strip HTML-like tags, then strip whitespace. -/
def clean_summary (raw : String) : String :=
  (String.mk (stripTagsGo none raw.data)).trim

/-! ## feeds.py: entry model and the per-entry pipeline -/

/-- One parsed feed entry, at the granularity the code reads it:
getattr(entry, "link", None) (an empty string is falsy and is skipped like a
missing link), the parsed published/updated timestamp, and the raw
summary/description strings (getattr default ""). -/
structure Entry where
  link : Option String
  published : Option Int
  title : String
  summary : String
  description : String
deriving DecidableEq

/-- feeds.py lines 88-92: entry.summary or entry.description or "". -/
def rawSummary (e : Entry) : String :=
  if e.summary ≠ "" then e.summary else e.description

/-- An Article Candidate dict as built at feeds.py lines 112-120. -/
structure Article where
  title : String
  link : String
  summary : String
  published : String
  source : String
  estimated_reading_min : Rat
  reading_time_estimated : Bool
deriving DecidableEq

/-- feeds.py lines 95-103: the summary-based estimate, escalated to a
newspaper3k full-text estimate only when the summary estimate is below the
minimum, the minimum is positive, and the summary is under 100 characters.
Returns the final reading_min together with the possibly-replaced summary.
extract models _extract_with_newspaper (failure = ("", "")). -/
def entryEstimate (extract : String → String × String) (min_min : Rat)
    (wpm : Nat) (link : String) (summary0 : String) : Rat × String :=
  let rm := estimate_reading_min summary0 wpm
  if rm < min_min ∧ 0 < min_min ∧ summary0.length < 100 then
    let tp := extract link
    if tp.1 ≠ "" then
      (estimate_reading_min tp.1 wpm,
       if summary0 = "" ∧ tp.2 ≠ "" then tp.2 else summary0)
    else (rm, summary0)
  else (rm, summary0)

/-- feeds.py lines 87-120 after the link and date filters: build the candidate
dict, or skip it when the estimate is strictly positive and outside
[min_min, max_min]. -/
def buildArticle (extract : String → String × String) (min_min max_min : Rat)
    (wpm : Nat) (source : String) (link : String) (published : Option Int)
    (title rawSum : String) : Option Article :=
  let p := entryEstimate extract min_min wpm link (clean_summary rawSum)
  if 0 < p.1 ∧ (p.1 < min_min ∨ max_min < p.1) then none
  else some {
    title := title.trim
    link := link
    summary := p.2.take 500
    published := match published with | some t => toString t | none => ""
    source := source
    estimated_reading_min := round1 p.1
    reading_time_estimated := decide (p.1 = 0) }

/-- feeds.py lines 78-120: the whole per-entry pipeline of _fetch_one_feed:
skip entries with a missing or empty link, a link in the caller-supplied seen
set, or a timestamp older than the cutoff (no timestamp = fresh), then apply
buildArticle. -/
def processEntry (extract : String → String × String) (cutoff : Int)
    (sent_links : List String) (min_min max_min : Rat) (wpm : Nat)
    (source : String) (e : Entry) : Option Article :=
  match e.link with
  | none => none
  | some link =>
    if link = "" ∨ link ∈ sent_links then none
    else
      match e.published with
      | some t =>
          if t < cutoff then none
          else buildArticle extract min_min max_min wpm source link (some t)
                 e.title (rawSummary e)
      | none => buildArticle extract min_min max_min wpm source link none
                  e.title (rawSummary e)

/-- The outcome of fetching one feed endpoint: its source domain
(_domain(feed_url); URL parsing abstracted) and either the parsed entry list or
none when the HTTP fetch or feed parse raised (feeds.py lines 67-73 return []
in that case). -/
structure FeedResult where
  source : String
  entries : Option (List Entry)
deriving DecidableEq

/-- feeds.py _fetch_one_feed: a failed feed contributes no candidates; an
entry list is filtered entry by entry in order. -/
def fetch_one_feed (extract : String → String × String) (cutoff : Int)
    (sent_links : List String) (min_min max_min : Rat) (wpm : Nat)
    (fr : FeedResult) : List Article :=
  match fr.entries with
  | none => []
  | some es =>
      es.filterMap
        (processEntry extract cutoff sent_links min_min max_min wpm fr.source)

/-- config.json fields read by the core pipeline. -/
structure Config where
  lookback_days : Int
  min_reading_minutes : Rat
  max_reading_minutes : Rat
  words_per_minute : Nat
  keywords : List String
  max_candidates_to_llm : Nat
deriving DecidableEq

/-- feeds.py fetch_all_feeds: cutoff = now - lookback_days; the per-feed result
lists are concatenated via all_articles.extend in task-completion order, which
is the order of the results parameter. -/
def fetch_all_feeds (cfg : Config) (extract : String → String × String)
    (now : Int) (sent_links : List String) (results : List FeedResult) :
    List Article :=
  results.foldl
    (fun acc fr =>
      acc ++ fetch_one_feed extract (now - cfg.lookback_days) sent_links
        cfg.min_reading_minutes cfg.max_reading_minutes cfg.words_per_minute fr)
    []

/-! ## selector.py: the Selection Gateway -/

/-- The value of the parsed oracle response's index field as a Python value:
absent covers a missing key and JSON null (both give result.get("index") is
None), intVal an int (a Python bool passes isinstance(_, int) and is modelled
here by its integer value), nonInt every other JSON value. -/
inductive IndexVal where
  | absent
  | intVal (i : Int)
  | nonInt
deriving DecidableEq

/-- The JSON object recovered from the oracle response (selector.py lines
54-68), field accesses via result.get. -/
structure OracleResult where
  index : IndexVal
  reason : Option String
  summary_es : Option String
  matched_keywords : Option (List String)
deriving DecidableEq

/-- selector.py lines 75-80: pool[idx].copy() enriched with the oracle's
reason, summary_es and matched_keywords. -/
structure SelectedArticle where
  art : Article
  reason : String
  summary_es : String
  matched_keywords : List String
deriving DecidableEq

/-- selector.py select_best_article. resp is the already-parsed oracle
response; none collapses the API-failure and the unparseable-JSON paths, both
of which return None in the code. The index is trusted only after the check of
line 71: present, an int, and within [0, len(pool)). -/
def select_best_article (candidates : List Article) (resp : Option OracleResult)
    (max_candidates : Nat) : Option SelectedArticle :=
  if candidates.isEmpty then none
  else
    let pool := candidates.take max_candidates
    match resp with
    | none => none
    | some r =>
      match r.index with
      | IndexVal.intVal i =>
          if h : 0 ≤ i ∧ i.toNat < pool.length then
            let sel := pool.get ⟨i.toNat, h.2⟩
            some { art := sel
                   reason := r.reason.getD ""
                   summary_es := r.summary_es.getD sel.summary
                   matched_keywords := r.matched_keywords.getD [] }
          else none
      | _ => none

/-- The decidable form of the index-validity check of selector.py line 71
(n = size of the pool shown to the oracle). -/
def idxOk (v : IndexVal) (n : Nat) : Bool :=
  match v with
  | IndexVal.intVal i => decide (0 ≤ i) && decide (i < (n : Int))
  | _ => false

/-! ## Persisted state (state.json) and main.py refill_queue -/

/-- A queue element: the selected candidate spread together with the
enrichment fields and queued_at (main.py lines 69-72); sent_at is added later
in place by _handle_articulo. -/
structure QueuedArticle where
  art : Article
  reason : String
  summary_es : String
  matched_keywords : List String
  queued_at : String
  sent_at : Option String
deriving DecidableEq

/-- main.py lines 69-72: the dict appended to the queue. -/
def mkQueued (sel : SelectedArticle) (now : String) : QueuedArticle :=
  { art := sel.art
    reason := sel.reason
    summary_es := sel.summary_es
    matched_keywords := sel.matched_keywords
    queued_at := now
    sent_at := none }

/-- A sent-history record as built in bot_listener.py lines 128-134. -/
structure SentRecord where
  link : String
  title : String
  date : String
  sent_at : String
  read_at : String
deriving DecidableEq

/-- The persisted root object of state.json. -/
structure BotState where
  sent : List SentRecord
  queue : List QueuedArticle
deriving DecidableEq

def sentLinks (s : List SentRecord) : List String := s.map (fun r => r.link)

def queueLinks (q : List QueuedArticle) : List String :=
  q.map (fun x => x.art.link)

/-- main.py lines 60-80: the refill while-loop, written with the remaining
number of free slots (slots - added) as the structural fuel, so an iteration
runs exactly while added < slots, candidates remain and the oracle produces a
selection. oracle k is the parsed response of the k-th oracle call of this
refill. Returns the final queue and the number of appended items. -/
def refill_loop (oracle : Nat → Option OracleResult) (maxc : Nat) (now : String) :
    Nat → Nat → List QueuedArticle → List Article →
    List QueuedArticle × Nat
  | 0, _, queue, _ => (queue, 0)
  | n + 1, k, queue, remaining =>
    if remaining.isEmpty then (queue, 0)
    else
      match select_best_article remaining (oracle k) maxc with
      | none => (queue, 0)
      | some sel =>
          let res := refill_loop oracle maxc now n (k + 1)
            (queue ++ [mkQueued sel now])
            (remaining.filter (fun c => c.link ≠ sel.art.link))
          (res.1, res.2 + 1)

/-- main.py refill_queue: no-op when the queue already holds queue_target or
more; otherwise build the seen set from sent and queue links, fetch candidates
once, and run the selection loop. Returns the updated state and the count of
appended articles. The Python set of seen links is modelled by a list with the
same membership. -/
def refill_queue (queue_target : Nat) (oracle : Nat → Option OracleResult)
    (cfg : Config) (extract : String → String × String) (now : Int)
    (nowIso : String) (results : List FeedResult) (state : BotState) :
    BotState × Nat :=
  if queue_target ≤ state.queue.length then (state, 0)
  else
    let slots := queue_target - state.queue.length
    let seen := sentLinks state.sent ++ queueLinks state.queue
    let candidates := fetch_all_feeds cfg extract now seen results
    if candidates.isEmpty then (state, 0)
    else
      let res := refill_loop oracle cfg.max_candidates_to_llm nowIso slots 0
        state.queue candidates
      ({ state with queue := res.1 }, res.2)

/-! ## bot_listener.py command handlers -/

/-- Python list[-n:]. -/
def lastN (n : Nat) (l : List α) : List α := l.drop (l.length - n)

/-- bot_listener.py lines 128-134: the Sent Record archived for a confirmed
article, read_at = now, sent_at defaulted to now when the article was never
delivered. -/
def mkSentRecord (now : String) (a : QueuedArticle) : SentRecord :=
  { link := a.art.link
    title := a.art.title
    date := a.art.published
    sent_at := a.sent_at.getD now
    read_at := now }

/-- bot_listener.py _handle_leido: on an empty queue only an informational
reply is sent and nothing is saved, so the state is unchanged; otherwise pop
the head, archive it, and truncate sent to the last 200 before saving. -/
def handle_leido (now : String) (state : BotState) : BotState :=
  match state.queue with
  | [] => state
  | a :: rest =>
      { sent := lastN 200 (state.sent ++ [mkSentRecord now a]), queue := rest }

/-- bot_listener.py _handle_articulo: on an empty queue only an informational
reply is sent; otherwise sent_at is set on the head in place (the head is not
popped), the state is saved, and the head is delivered. Returns the new state
and the delivered article. -/
def handle_articulo (now : String) (state : BotState) :
    BotState × Option QueuedArticle :=
  match state.queue with
  | [] => (state, none)
  | a :: rest =>
      let a2 := { a with sent_at := some now }
      ({ state with queue := a2 :: rest }, some a2)

/-- bot_listener.py lines 154-155 and main.py line 102: the caller-side
truncation of sent to the last 200 entries performed just before save. -/
def truncate_for_save (st : BotState) : BotState :=
  { st with sent := lastN 200 st.sent }

/-! ## github_state.py save_state -/

/-- The environment of one save_state call: whether GITHUB_TOKEN and
GITHUB_REPO are both set, the outcome of the _get_file_meta call (the sha
version token, none when the GET raised), and whether the conditional PUT
succeeds (false covers a 409 sha conflict and any transport error, both of
which raise through raise_for_status or requests). -/
structure RemoteEnv where
  configured : Bool
  meta : Option String
  putOk : Bool
deriving DecidableEq

/-- What a save_state call persists and how: a plain local write (no remote
configured), a remote PUT carrying the sha precondition it read, or the
logged-error fallback local write after any remote failure. -/
inductive SaveResult where
  | localWrite (persisted : BotState)
  | remotePut (precondSha : String) (persisted : BotState)
  | remoteFailLocal (persisted : BotState)
deriving DecidableEq

/-- github_state.py save_state: local write when unconfigured; otherwise read
the current sha via _get_file_meta immediately before the PUT and supply it in
the payload; any exception on the way (meta read failure, PUT conflict or
transport error) is caught, logged at error level, and falls back to writing
the same state locally. The state is persisted exactly as given: no truncation
happens here. -/
def save_state (env : RemoteEnv) (state : BotState) : SaveResult :=
  if env.configured = false then SaveResult.localWrite state
  else
    match env.meta with
    | none => SaveResult.remoteFailLocal state
    | some sha =>
        if env.putOk then SaveResult.remotePut sha state
        else SaveResult.remoteFailLocal state

/-- The state a SaveResult durably writes (remotely or locally). -/
def persistedOf : SaveResult → BotState
  | SaveResult.localWrite s => s
  | SaveResult.remotePut _ s => s
  | SaveResult.remoteFailLocal s => s

/-! ## bot_listener.py run_listener: per-update dispatch -/

/-- One inbound Telegram update at the granularity the loop reads it. -/
inductive Update where
  | callback (chat : Int) (cqId : String) (data : String)
  | message (chat : Int) (text : String)
  | emptyUpdate
deriving DecidableEq

/-- The externally visible actions one update produces. answerCb is the
Telegram answerCallbackQuery reply shown to the pressing user, sendText a chat
message, invoke the entry into a command handler (whose own messages are
modelled with the handler definitions above), logWarn the unauthorized-sender
warning log. Info-level logs are not modelled. -/
inductive Effect where
  | answerCb (cqId : String) (note : Option String)
  | sendText (chat : Int) (text : String)
  | invoke (handlerName : String) (chat : Int)
  | logWarn
deriving DecidableEq

/-- bot_listener.py _is_authorized: str(chat_id) == str(ALLOWED_CHAT_ID). -/
def is_authorized (allowed : String) (chat : Int) : Bool :=
  toString chat = allowed

/-- bot_listener.py line 276: first whitespace token of the stripped text,
lowercased, cut at the first "@"; "" for empty text. -/
def cmdOf (t : String) : String :=
  if t = "" then ""
  else ((((wordsOf t).headD "").toLower).splitOn "@").headD ""

/-- bot_listener.py lines 237-291: the dispatch of one update. An unauthorized
button press is answered with a "no autorizado" callback note and nothing else
(and is not logged); an unauthorized text message is logged and dropped with
no reply; authorized updates are routed to their handlers. -/
def dispatch (allowed : String) : Update → List Effect
  | Update.callback chat cq data =>
      if is_authorized allowed chat then
        if data = "leido" then
          [Effect.answerCb cq (some "✅ Marcado como leído"),
           Effect.invoke "leido" chat]
        else if data = "cola" then
          [Effect.answerCb cq none, Effect.invoke "cola" chat]
        else if data = "articulo" then
          [Effect.answerCb cq none, Effect.invoke "articulo" chat]
        else [Effect.answerCb cq (some "❓ Acción desconocida.")]
      else [Effect.answerCb cq (some "⛔ No autorizado.")]
  | Update.message chat text =>
      let t := text.trim
      if is_authorized allowed chat then
        let cmd := cmdOf t
        if cmd = "/articulo" ∨ cmd = "/siguiente" then
          [Effect.invoke "articulo" chat]
        else if cmd = "/leido" then [Effect.invoke "leido" chat]
        else if cmd = "/recargar" then [Effect.invoke "recargar" chat]
        else if cmd = "/cola" then [Effect.invoke "cola" chat]
        else if cmd = "/estado" then [Effect.invoke "estado" chat]
        else if cmd = "/ayuda" ∨ cmd = "/start" ∨ cmd = "/help" then
          [Effect.invoke "ayuda" chat]
        else if t.startsWith "/" then
          [Effect.sendText chat "❓ Comando no reconocido. Usá /ayuda."]
        else []
      else [Effect.logWarn]
  | Update.emptyUpdate => []

/-! ## Concrete data used by witnesses and counterexamples -/

/-- A newspaper3k extraction that always fails: ("", ""). -/
def extract0 : String → String × String := fun _ => ("", "")

def artA : Article :=
  { title := "A", link := "http://ex.com/a", summary := "sa", published := ""
    source := "ex.com", estimated_reading_min := 2
    reading_time_estimated := false }

def artB : Article :=
  { title := "B", link := "http://ex.com/b", summary := "sb", published := ""
    source := "ex.com", estimated_reading_min := 3
    reading_time_estimated := false }

def artC : Article :=
  { title := "C", link := "http://ex.com/c", summary := "sc", published := ""
    source := "ex.com", estimated_reading_min := 4
    reading_time_estimated := false }

/-- An oracle response carrying index 99 (the spec's own scenario for a pool
of 3). -/
def r99 : OracleResult :=
  { index := IndexVal.intVal 99, reason := none, summary_es := none
    matched_keywords := none }

def qa0 : QueuedArticle :=
  { art := artA, reason := "r", summary_es := "s", matched_keywords := []
    queued_at := "t0", sent_at := none }

def rec0 : SentRecord :=
  { link := "http://ex.com/old", title := "old", date := "", sent_at := "t"
    read_at := "t" }

/-- A state whose sent history exceeds the 200-entry bound. -/
def bigState : BotState := { sent := List.replicate 201 rec0, queue := [] }

/-- A state with exactly one queued article. -/
def stOne : BotState := { sent := [rec0], queue := [qa0] }

/-- An entry with an empty summary: the reading-time estimate is 0. -/
def eZero : Entry :=
  { link := some "http://e/z", published := none, title := "Z", summary := ""
    description := "" }

/-- An entry whose five-word summary gives a positive summary-based
estimate. -/
def eWords : Entry :=
  { link := some "http://e/w", published := none, title := "W"
    summary := "one two three four five", description := "" }

def cfgD : Config :=
  { lookback_days := 0, min_reading_minutes := 1, max_reading_minutes := 10
    words_per_minute := 1, keywords := [], max_candidates_to_llm := 30 }

/-- One feed whose parsed entry list repeats the same link twice. -/
def feedD : FeedResult := { source := "dup", entries := some [eZero, eZero] }

/-- The article produced for eZero by processEntry with extract0,
min 1, max 10, wpm 1, source "x" (defaulting to artA, which cannot happen
since the entry is accepted). -/
def artZ : Article := (processEntry extract0 0 [] 1 10 1 "x" eZero).getD artA

/-! ## Helper lemmas -/

theorem select_best_article_mem (cands : List Article)
    (resp : Option OracleResult) (maxc : Nat) (sel : SelectedArticle)
    (h : select_best_article cands resp maxc = some sel) :
    sel.art ∈ cands.take maxc := by
  cases resp with
  | none => simp [select_best_article] at h
  | some r =>
    cases hidx : r.index with
    | absent => simp [select_best_article, hidx] at h
    | nonInt => simp [select_best_article, hidx] at h
    | intVal i =>
      simp only [select_best_article, hidx] at h
      split at h
      · exact absurd h (by simp)
      · split at h
        · rw [Option.some.injEq] at h
          subst h
          exact List.get_mem _ _ _
        · exact absurd h (by simp)

theorem buildArticle_link (extract : String → String × String)
    (min_min max_min : Rat) (wpm : Nat) (src link : String)
    (pub : Option Int) (title rawS : String) (art : Article)
    (h : buildArticle extract min_min max_min wpm src link pub title rawS =
      some art) : art.link = link := by
  simp only [buildArticle] at h
  split at h
  · exact absurd h (by simp)
  · rw [Option.some.injEq] at h
    subst h
    rfl

theorem processEntry_some (extract : String → String × String) (cutoff : Int)
    (seen : List String) (min_min max_min : Rat) (wpm : Nat) (src : String)
    (e : Entry) (art : Article)
    (h : processEntry extract cutoff seen min_min max_min wpm src e =
      some art) :
    ∃ l, e.link = some l ∧ art.link = l ∧ l ∉ seen ∧ l ≠ "" := by
  cases hl : e.link with
  | none => simp [processEntry, hl] at h
  | some l =>
    simp only [processEntry, hl] at h
    split at h
    · exact absurd h (by simp)
    · rename_i hguard
      have hne : l ≠ "" := by intro hcon; exact hguard (Or.inl hcon)
      have hns : l ∉ seen := by intro hcon; exact hguard (Or.inr hcon)
      refine ⟨l, rfl, ?_, hns, hne⟩
      cases hp : e.published with
      | none =>
        simp only [hp] at h
        exact buildArticle_link _ _ _ _ _ _ _ _ _ _ h
      | some t =>
        simp only [hp] at h
        split at h
        · exact absurd h (by simp)
        · exact buildArticle_link _ _ _ _ _ _ _ _ _ _ h

theorem mem_foldl_append {α β : Type} (f : β → List α) :
    ∀ (rs : List β) (acc : List α) (a : α),
      a ∈ rs.foldl (fun l fr => l ++ f fr) acc →
      a ∈ acc ∨ ∃ fr ∈ rs, a ∈ f fr := by
  intro rs
  induction rs with
  | nil => intro acc a h; exact Or.inl h
  | cons r rs ih =>
    intro acc a h
    simp only [List.foldl_cons] at h
    rcases ih (acc ++ f r) a h with h' | h'
    · rcases List.mem_append.mp h' with h'' | h''
      · exact Or.inl h''
      · exact Or.inr ⟨r, by simp, h''⟩
    · rcases h' with ⟨fr, hfr, hafr⟩
      exact Or.inr ⟨fr, by simp [hfr], hafr⟩

theorem fetch_one_feed_not_seen (extract : String → String × String)
    (cutoff : Int) (seen : List String) (min_min max_min : Rat) (wpm : Nat)
    (fr : FeedResult) (a : Article)
    (ha : a ∈ fetch_one_feed extract cutoff seen min_min max_min wpm fr) :
    a.link ∉ seen := by
  unfold fetch_one_feed at ha
  cases hfr : fr.entries with
  | none => rw [hfr] at ha; exact absurd ha (by simp)
  | some es =>
    rw [hfr] at ha
    rcases List.mem_filterMap.mp ha with ⟨e, _, hpe⟩
    rcases processEntry_some _ _ _ _ _ _ _ _ _ hpe with ⟨l, _, hlink, hnot, _⟩
    rw [hlink]
    exact hnot

theorem fetch_all_feeds_not_seen (cfg : Config)
    (extract : String → String × String) (now : Int) (seen : List String)
    (results : List FeedResult) (a : Article)
    (ha : a ∈ fetch_all_feeds cfg extract now seen results) :
    a.link ∉ seen := by
  unfold fetch_all_feeds at ha
  rcases mem_foldl_append _ results [] a ha with h | ⟨fr, _, h⟩
  · exact absurd h (by simp)
  · exact fetch_one_feed_not_seen _ _ _ _ _ _ _ _ h

theorem refill_loop_spec (oracle : Nat → Option OracleResult) (maxc : Nat)
    (now : String) :
    ∀ (fuel k : Nat) (queue : List QueuedArticle) (remaining : List Article),
      ∃ new : List QueuedArticle,
        (refill_loop oracle maxc now fuel k queue remaining).1 =
          queue ++ new ∧
        new.length = (refill_loop oracle maxc now fuel k queue remaining).2 ∧
        (refill_loop oracle maxc now fuel k queue remaining).2 ≤ fuel ∧
        (∀ x ∈ new, x.art.link ∈ remaining.map (fun c => c.link)) ∧
        (new.map (fun x => x.art.link)).Nodup := by
  intro fuel
  induction fuel with
  | zero =>
    intro k queue remaining
    exact ⟨[], by simp [refill_loop], by simp [refill_loop],
      by simp [refill_loop], by simp, by simp⟩
  | succ n ih =>
    intro k queue remaining
    by_cases hre : remaining.isEmpty
    · exact ⟨[], by simp [refill_loop, hre], by simp [refill_loop, hre],
        by simp [refill_loop, hre], by simp, by simp⟩
    · cases hsel : select_best_article remaining (oracle k) maxc with
      | none =>
        exact ⟨[], by simp [refill_loop, hre, hsel],
          by simp [refill_loop, hre, hsel], by simp [refill_loop, hre, hsel],
          by simp, by simp⟩
      | some sel =>
        obtain ⟨new', h1, h2, h3, h4, h5⟩ := ih (k + 1)
          (queue ++ [mkQueued sel now])
          (remaining.filter (fun c => c.link ≠ sel.art.link))
        have hstep :
            refill_loop oracle maxc now (n + 1) k queue remaining =
            ((refill_loop oracle maxc now n (k + 1)
                (queue ++ [mkQueued sel now])
                (remaining.filter (fun c => c.link ≠ sel.art.link))).1,
             (refill_loop oracle maxc now n (k + 1)
                (queue ++ [mkQueued sel now])
                (remaining.filter (fun c => c.link ≠ sel.art.link))).2 + 1) := by
          simp [refill_loop, hre, hsel]
        have hmem : sel.art.link ∈ remaining.map (fun c => c.link) := by
          have := select_best_article_mem _ _ _ _ hsel
          exact List.mem_map_of_mem _ (List.take_subset _ _ this)
        refine ⟨mkQueued sel now :: new', ?_, ?_, ?_, ?_, ?_⟩
        · rw [hstep]
          simpa [List.append_assoc] using h1
        · rw [hstep]
          simpa using h2
        · rw [hstep]
          omega
        · intro x hx
          rcases List.mem_cons.mp hx with hx | hx
          · subst hx
            exact hmem
          · have hm := h4 x hx
            rcases List.mem_map.mp hm with ⟨c, hc, hcl⟩
            exact hcl ▸ List.mem_map_of_mem _ (List.mem_of_mem_filter hc)
        · refine List.nodup_cons.mpr ⟨?_, h5⟩
          intro hcon
          rcases List.mem_map.mp hcon with ⟨x, hxnew, hxl⟩
          have := h4 x hxnew
          rcases List.mem_map.mp this with ⟨c, hcf, hcl⟩
          have := List.of_mem_filter hcf
          simp only [decide_eq_true_eq] at this
          rw [mkQueued] at hxl
          simp only at hxl
          exact this (by rw [hcl, hxl])

/-! ## Claim theorems -/

/-- C1: for every persisted state and queue target, refill_queue appends at
most queue_target - len(queue_before) articles, never appends an article whose
link is already in sent or in the queue, appends pairwise-distinct links
(so links queued earlier in the same call are never duplicated), leaves sent
untouched, and returns exactly the number of articles it appended. -/
theorem refill_bound_and_dedup (queue_target : Nat)
    (oracle : Nat → Option OracleResult) (cfg : Config)
    (extract : String → String × String) (now : Int) (nowIso : String)
    (results : List FeedResult) (state : BotState) :
    ∃ new : List QueuedArticle,
      (refill_queue queue_target oracle cfg extract now nowIso results
        state).1.queue = state.queue ++ new ∧
      (refill_queue queue_target oracle cfg extract now nowIso results
        state).1.sent = state.sent ∧
      new.length = (refill_queue queue_target oracle cfg extract now nowIso
        results state).2 ∧
      (refill_queue queue_target oracle cfg extract now nowIso results
        state).2 ≤ queue_target - state.queue.length ∧
      (∀ x ∈ new, x.art.link ∉ sentLinks state.sent ∧
        x.art.link ∉ queueLinks state.queue) ∧
      (new.map (fun x => x.art.link)).Nodup := by
  unfold refill_queue
  by_cases hfull : queue_target ≤ state.queue.length
  · rw [if_pos hfull]
    exact ⟨[], by simp, by simp, by simp, by simp, by simp, by simp⟩
  · rw [if_neg hfull]
    by_cases hcand : (fetch_all_feeds cfg extract now
        (sentLinks state.sent ++ queueLinks state.queue) results).isEmpty
    · refine ⟨[], ?_, ?_, ?_, ?_, ?_, ?_⟩ <;> simp [hcand]
    · obtain ⟨new, h1, h2, h3, h4, h5⟩ :=
        refill_loop_spec oracle cfg.max_candidates_to_llm nowIso
          (queue_target - state.queue.length) 0 state.queue
          (fetch_all_feeds cfg extract now
            (sentLinks state.sent ++ queueLinks state.queue) results)
      refine ⟨new, by simpa [hcand] using h1, by simp [hcand],
        by simpa [hcand] using h2, by simpa [hcand] using h3, ?_, h5⟩
      intro x hx
      have hlink := h4 x hx
      rcases List.mem_map.mp hlink with ⟨c, hc, hcl⟩
      have hns := fetch_all_feeds_not_seen cfg extract now
        (sentLinks state.sent ++ queueLinks state.queue) results c hc
      rw [← hcl]
      constructor
      · intro hcon
        exact hns (List.mem_append.mpr (Or.inl hcon))
      · intro hcon
        exact hns (List.mem_append.mpr (Or.inr hcon))

theorem buildArticle_flag (extract : String → String × String)
    (min_min max_min : Rat) (wpm : Nat) (src link : String)
    (pub : Option Int) (title rawS : String) (art : Article)
    (h : buildArticle extract min_min max_min wpm src link pub title rawS =
      some art) :
    art.reading_time_estimated = true ↔
      (entryEstimate extract min_min wpm link (clean_summary rawS)).1 = 0 := by
  simp only [buildArticle] at h
  split at h
  · exact absurd h (by simp)
  · rw [Option.some.injEq] at h
    subst h
    simp

/-- C4: for every oracle response whose index field is missing, not an
integer, negative, or at least the size of the candidate subset shown to the
oracle, the Selection Gateway returns no-selection; and whenever it does
select, the selected candidate comes from the subset, so the pool is never
indexed out of range. -/
theorem selector_index_validation (cands : List Article) (r : OracleResult)
    (maxc : Nat) :
    (idxOk r.index (cands.take maxc).length = false →
      select_best_article cands (some r) maxc = none) ∧
    (∀ resp sel, select_best_article cands resp maxc = some sel →
      sel.art ∈ cands.take maxc) := by
  constructor
  · intro hbad
    cases hidx : r.index with
    | absent => simp [select_best_article, hidx]
    | nonInt => simp [select_best_article, hidx]
    | intVal i =>
      rw [hidx] at hbad
      simp only [select_best_article, hidx]
      split
      · rfl
      · split
        · rename_i hcond
          exfalso
          obtain ⟨h1, h2⟩ := hcond
          have htrue : idxOk (IndexVal.intVal i)
              (cands.take maxc).length = true := by
            simp only [idxOk, Bool.and_eq_true, decide_eq_true_eq]
            omega
          rw [htrue] at hbad
          exact absurd hbad (by simp)
        · rfl
  · intro resp sel hsel
    exact select_best_article_mem _ _ _ _ hsel

/-- Witness for C4 at the spec's own scenario: a pool of 3 candidates and an
oracle response with index 99 yields no-selection. -/
theorem selector_index_validation_witness :
    select_best_article [artA, artB, artC] (some r99) 30 = none :=
  (selector_index_validation [artA, artB, artC] r99 30).1 (by decide)

/-- C2: confirm-read on a non-empty queue removes exactly the head and
appends exactly one Sent Record for it with read_at set (the sent list is then
truncated at the store-side 200 bound, which is the identity whenever sent had
at most 199 entries); on an empty queue the state is unchanged and the
operation is idempotent. -/
theorem leido_fifo (now : String) (state : BotState) :
    (state.queue = [] → handle_leido now state = state ∧
      handle_leido now (handle_leido now state) = handle_leido now state) ∧
    (∀ a rest, state.queue = a :: rest →
      (handle_leido now state).queue = rest ∧
      (handle_leido now state).sent =
        lastN 200 (state.sent ++ [mkSentRecord now a]) ∧
      (mkSentRecord now a).read_at = now ∧
      (mkSentRecord now a).link = a.art.link ∧
      (state.sent.length ≤ 199 →
        (handle_leido now state).sent =
          state.sent ++ [mkSentRecord now a])) := by
  obtain ⟨sent, queue⟩ := state
  constructor
  · intro hq
    have hq' : queue = [] := hq
    subst hq'
    exact ⟨rfl, rfl⟩
  · intro a rest hq
    have hq' : queue = a :: rest := hq
    subst hq'
    refine ⟨rfl, rfl, rfl, rfl, ?_⟩
    intro hlen
    have hlen' : sent.length ≤ 199 := hlen
    show lastN 200 (sent ++ [mkSentRecord now a]) =
      sent ++ [mkSentRecord now a]
    unfold lastN
    have hz : (sent ++ [mkSentRecord now a]).length - 200 = 0 := by
      simp
      omega
    rw [hz, List.drop_zero]

/-- Witness for C2: a one-element queue is emptied and its head archived. -/
theorem leido_fifo_witness :
    (handle_leido "t1" stOne).queue = [] ∧
    (handle_leido "t1" stOne).sent = stOne.sent ++ [mkSentRecord "t1" qa0] := by
  have h := (leido_fifo "t1" stOne).2 qa0 [] rfl
  exact ⟨h.1, h.2.2.2.2 (by decide)⟩

/-- C3 counterexample: save_state does not re-truncate; a state whose sent
list has 201 entries is persisted with all 201 entries, so the claim that the
store boundary enforces the 200 bound is false. -/
theorem save_no_truncation_cex :
    200 < (persistedOf (save_state ⟨false, none, false⟩ bigState)).sent.length
    := by
  decide

/-- C3 amended: save persists the state exactly as given, without truncating;
the truncation to the last 200 sent entries is performed by the callers (the
confirm-read handler, and the main/recargar paths embedded as
truncate_for_save) immediately before they save, so every state saved through
those call sites has at most 200 sent entries. -/
theorem save_truncation_at_callers :
    (∀ env st, persistedOf (save_state env st) = st) ∧
    (∀ now st, st.queue ≠ [] → (handle_leido now st).sent.length ≤ 200) ∧
    (∀ st, (truncate_for_save st).sent.length ≤ 200) := by
  refine ⟨?_, ?_, ?_⟩
  · intro env st
    by_cases hc : env.configured = false
    · simp [save_state, hc, persistedOf]
    · cases hm : env.meta with
      | none => simp [save_state, hc, hm, persistedOf]
      | some sha =>
        by_cases hp : env.putOk <;> simp [save_state, hc, hm, hp, persistedOf]
  · intro now st hq
    obtain ⟨sent, queue⟩ := st
    cases queue with
    | nil => exact absurd rfl hq
    | cons a rest =>
      show (lastN 200 (sent ++ [mkSentRecord now a])).length ≤ 200
      unfold lastN
      rw [List.length_drop]
      omega
  · intro st
    show (lastN 200 st.sent).length ≤ 200
    unfold lastN
    rw [List.length_drop]
    omega

/-- Witness for the C3 amended theorem: confirm-read on a concrete state
saves a sent list within the bound. -/
theorem save_truncation_at_callers_witness :
    (handle_leido "t2" stOne).sent.length ≤ 200 :=
  save_truncation_at_callers.2.1 "t2" stOne (by simp [stOne])

/-- C5: a feed entry that passes the link and date filters is included when
its final reading-time estimate is exactly 0, regardless of the configured
min/max, and is excluded when its estimate is strictly positive and outside
[min, max]. -/
theorem reading_time_boundary (extract : String → String × String)
    (cutoff : Int) (seen : List String) (min_min max_min : Rat) (wpm : Nat)
    (src : String) (e : Entry) (l : String) (_hw : 0 < wpm)
    (hl : e.link = some l) (hne : l ≠ "") (hseen : l ∉ seen)
    (hfresh : ∀ t, e.published = some t → cutoff ≤ t) :
    ((entryEstimate extract min_min wpm l
        (clean_summary (rawSummary e))).1 = 0 →
      ∃ art, processEntry extract cutoff seen min_min max_min wpm src e =
        some art) ∧
    (0 < (entryEstimate extract min_min wpm l
        (clean_summary (rawSummary e))).1 ∧
      ((entryEstimate extract min_min wpm l
          (clean_summary (rawSummary e))).1 < min_min ∨
        max_min < (entryEstimate extract min_min wpm l
          (clean_summary (rawSummary e))).1) →
      processEntry extract cutoff seen min_min max_min wpm src e = none) := by
  have hguard : ¬(l = "" ∨ l ∈ seen) := by
    rintro (hc | hc)
    exacts [hne hc, hseen hc]
  have hred : processEntry extract cutoff seen min_min max_min wpm src e =
      buildArticle extract min_min max_min wpm src l e.published e.title
        (rawSummary e) := by
    cases hp : e.published with
    | none => simp [processEntry, hl, hguard, hp]
    | some t =>
      have hnl : ¬ t < cutoff := not_lt.mpr (hfresh t hp)
      simp [processEntry, hl, hguard, hp, hnl]
  constructor
  · intro h0
    have hnot : ¬(0 < (entryEstimate extract min_min wpm l
        (clean_summary (rawSummary e))).1 ∧
        ((entryEstimate extract min_min wpm l
            (clean_summary (rawSummary e))).1 < min_min ∨
          max_min < (entryEstimate extract min_min wpm l
            (clean_summary (rawSummary e))).1)) := by
      rw [h0]
      intro hcon
      exact lt_irrefl 0 hcon.1
    rw [hred]
    exact ⟨_, by simp only [buildArticle]; rw [if_neg hnot]⟩
  · intro hout
    rw [hred]
    simp only [buildArticle]
    rw [if_pos hout]

/-- Witness for C5: the empty-summary entry has estimate 0 and is included
even though 0 lies below the configured minimum of 1. -/
theorem reading_time_boundary_witness :
    ∃ art, processEntry extract0 0 [] 1 10 1 "x" eZero = some art :=
  (reading_time_boundary extract0 0 [] 1 10 1 "x" eZero "http://e/z"
    (by decide) rfl (by decide) (by simp)
    (by intro t ht; simp [eZero] at ht)).1 (by with_unfolding_all rfl)

/-- C8 counterexample: eWords's reading time (5 minutes) is derived from its
short 23-character summary — extract0 never produces full text — yet
reading_time_estimated is false, because the code sets the flag only when the
estimate is 0, contradicting the claim that a summary-derived estimate sets
it to true. -/
theorem rte_flag_cex :
    (processEntry extract0 0 [] 1 10 1 "x" eWords).map
      (fun a => a.reading_time_estimated) = some false ∧
    (processEntry extract0 0 [] 1 10 1 "x" eWords).map
      (fun a => a.estimated_reading_min) = some 5 :=
  ⟨by with_unfolding_all rfl, by with_unfolding_all rfl⟩

/-- C8 amended: reading_time_estimated is true exactly when the final
reading-time estimate is 0, that is, when no estimate could be made from
either the summary or full text; a positive summary-derived estimate yields
false. -/
theorem rte_flag_iff (extract : String → String × String) (cutoff : Int)
    (seen : List String) (min_min max_min : Rat) (wpm : Nat) (src : String)
    (e : Entry) (art : Article)
    (h : processEntry extract cutoff seen min_min max_min wpm src e =
      some art) :
    ∃ l, e.link = some l ∧
      (art.reading_time_estimated = true ↔
        (entryEstimate extract min_min wpm l
          (clean_summary (rawSummary e))).1 = 0) := by
  rcases processEntry_some _ _ _ _ _ _ _ _ _ h with ⟨l, hl, _, hns, hne⟩
  refine ⟨l, hl, ?_⟩
  have hguard : ¬(l = "" ∨ l ∈ seen) := by
    rintro (hc | hc)
    exacts [hne hc, hns hc]
  cases hp : e.published with
  | none =>
    simp only [processEntry, hl] at h
    rw [if_neg hguard] at h
    simp only [hp] at h
    exact buildArticle_flag _ _ _ _ _ _ _ _ _ _ h
  | some t =>
    simp only [processEntry, hl] at h
    rw [if_neg hguard] at h
    simp only [hp] at h
    by_cases ht : t < cutoff
    · rw [if_pos ht] at h
      exact absurd h (by simp)
    · rw [if_neg ht] at h
      exact buildArticle_flag _ _ _ _ _ _ _ _ _ _ h

/-- Witness for the C8 amended theorem at the zero-estimate entry. -/
theorem rte_flag_iff_witness :
    ∃ l, eZero.link = some l ∧
      (artZ.reading_time_estimated = true ↔
        (entryEstimate extract0 1 1 l
          (clean_summary (rawSummary eZero))).1 = 0) :=
  rte_flag_iff extract0 0 [] 1 10 1 "x" eZero artZ (by with_unfolding_all rfl)

/-- The flag computed for eZero is in fact true, so the witness above is
about a concrete accepted article. -/
theorem artZ_flag_true : artZ.reading_time_estimated = true := by
  with_unfolding_all rfl

/-- C9: delivering the queue head on a non-empty queue sets sent_at on the
head in place and changes nothing else — the head stays first, queue length
and order are unchanged, sent is unchanged — and repeating the command
re-delivers the same head (with only sent_at refreshed). -/
theorem articulo_frame (now now2 : String) (state : BotState)
    (a : QueuedArticle) (rest : List QueuedArticle)
    (h : state.queue = a :: rest) :
    (handle_articulo now state).2 = some { a with sent_at := some now } ∧
    (handle_articulo now state).1.queue =
      { a with sent_at := some now } :: rest ∧
    (handle_articulo now state).1.queue.length = state.queue.length ∧
    (handle_articulo now state).1.sent = state.sent ∧
    (handle_articulo now2 (handle_articulo now state).1).2 =
      some { a with sent_at := some now2 } ∧
    (handle_articulo now2 (handle_articulo now state).1).1.queue =
      { a with sent_at := some now2 } :: rest := by
  unfold handle_articulo
  rw [h]
  exact ⟨rfl, rfl, rfl, rfl, rfl, rfl⟩

/-- Witness for C9: delivering from a concrete one-element queue returns the
head with sent_at set. -/
theorem articulo_frame_witness :
    (handle_articulo "t3" stOne).2 = some { qa0 with sent_at := some "t3" } :=
  (articulo_frame "t3" "t4" stOne qa0 [] rfl).1

/-- C6: with a remote store configured, save_state reads the current version
token (the content sha) immediately before writing and supplies exactly that
token as the PUT precondition; on a detected conflict or any transport error
(a failed meta read or a failed PUT) it falls back to a logged local durable
write of the same state, so the update is never silently lost. -/
theorem save_versioned_precondition (env : RemoteEnv) (st : BotState)
    (hc : env.configured = true) :
    ((∃ sha, env.meta = some sha ∧ env.putOk = true ∧
        save_state env st = SaveResult.remotePut sha st) ∨
      ((env.meta = none ∨ env.putOk = false) ∧
        save_state env st = SaveResult.remoteFailLocal st)) ∧
    persistedOf (save_state env st) = st := by
  have hc' : ¬ env.configured = false := by simp [hc]
  cases hm : env.meta with
  | none =>
    refine ⟨Or.inr ⟨Or.inl rfl, ?_⟩, ?_⟩ <;>
      simp [save_state, hc', hm, persistedOf]
  | some sha =>
    by_cases hp : env.putOk
    · refine ⟨Or.inl ⟨sha, rfl, hp, ?_⟩, ?_⟩ <;>
        simp [save_state, hc', hm, hp, persistedOf]
    · have hp' : env.putOk = false := by simpa using hp
      refine ⟨Or.inr ⟨Or.inr hp', ?_⟩, ?_⟩ <;>
        simp [save_state, hc', hm, hp', persistedOf]

/-- Witness for C6: a successful remote save persists the given state. -/
theorem save_versioned_precondition_witness :
    persistedOf (save_state ⟨true, some "sha1", true⟩ stOne) = stOne :=
  (save_versioned_precondition ⟨true, some "sha1", true⟩ stOne rfl).2

/-- C7 counterexample: an unauthorized button press is not silently dropped —
the listener answers the callback with a visible "no autorizado" note, a
reply sent back to the sender (and it is not logged), refuting the claim
that every unauthorized event gets no reply of any kind. -/
theorem unauthorized_callback_gets_reply :
    dispatch "1" (Update.callback 2 "cq7" "leido") =
      [Effect.answerCb "cq7" (some "⛔ No autorizado.")] := by
  decide

/-- C7 amended: an unauthorized text message is logged and dropped with no
reply; an unauthorized button press is not processed but is answered with a
"no autorizado" callback notification (and produces no other effect and no
warning log). -/
theorem unauthorized_event_handling (allowed : String) (chat : Int)
    (cq data text : String) (h : is_authorized allowed chat = false) :
    dispatch allowed (Update.message chat text) = [Effect.logWarn] ∧
    dispatch allowed (Update.callback chat cq data) =
      [Effect.answerCb cq (some "⛔ No autorizado.")] := by
  constructor
  · simp [dispatch, h]
  · simp [dispatch, h]

/-- Witness for the C7 amended theorem: a concrete unauthorized text command
produces only the warning log. -/
theorem unauthorized_event_handling_witness :
    dispatch "1" (Update.message 2 "/leido") = [Effect.logWarn] :=
  (unauthorized_event_handling "1" 2 "cq" "d" "/leido" (by decide)).1

/-- C10: the Fetcher's output can contain two candidates with the same link:
deduplication is applied only against the caller-supplied seen set, so one
feed listing the same link twice yields it twice in the returned list. -/
theorem fetch_output_can_duplicate :
    (fetch_all_feeds cfgD extract0 0 [] [feedD]).map (fun a => a.link) =
      ["http://e/z", "http://e/z"] := by
  with_unfolding_all rfl

end BotArticulos
